import Mathlib

/-!
Shallow embedding of the `reservoir` package (files `esn.go` and `membrane.go`)
of the Entelecho/echomox repository, with theorems checking the natural-language
specification against it.

Modelling conventions:
- Go `float64` values are modelled as exact rationals (`ℚ`); the algorithms in
  scope perform only field operations and comparisons, plus `math.Tanh`, which
  is abstracted as a function parameter where it occurs.
- Go slices become `List`s; in-place mutation becomes functional update; methods
  on pointer receivers become functions returning the updated value.
- Go `map[string]bool` / `map[int]bool` sets become `List String` / `List Nat`
  with membership tests (insertion is modelled idempotently, as for a map).
- Go pointer graphs (membrane parent/child pointers) are flattened into an
  index-based store: the `All` registry becomes a list of nodes and pointers
  become indices into that list.
- Functions returning `error` return the updated value paired with
  `Option String` (`none` = nil error), so that the "unchanged on error" parts
  of the spec are expressible.
-/

namespace Reservoir

/-- The `Object` from membrane.go: a computational object in a membrane. -/
structure Object where
  type : String
  value : ℚ
  charge : Int
  mobility : ℚ
deriving DecidableEq, Repr

instance : Inhabited Object := ⟨⟨"", 0, 0, 0⟩⟩

/-- The `EvolutionRule` from membrane.go. The Go `Transform` field is a possibly-nil
function value, modelled as an `Option`. -/
structure EvolutionRule where
  name : String
  priority : Int
  inputTypes : List String
  outputTypes : List String
  conditions : List String
  transform : Option (List Object → List Object)

instance : Inhabited EvolutionRule := ⟨⟨"", 0, [], [], [], none⟩⟩

/-- The `Membrane` from membrane.go, without the parent/children pointers (those are
flattened into the membrane-system store below). -/
structure Membrane where
  id : String
  level : Int
  permeability : ℚ
  objects : List Object
  rules : List EvolutionRule

instance : Inhabited Membrane := ⟨⟨"", 0, 0, [], []⟩⟩

/-- Go map insertion `typeNeeded[t] = true` on a set represented as a list:
idempotent (a present key is not duplicated). -/
def insAbsent (acc : List String) (t : String) : List String :=
  if t ∈ acc then acc else acc ++ [t]

/-- The construction of the Go map `typeNeeded` in `findMatches`:
`for _, t := range rule.InputTypes { typeNeeded[t] = true }`.
Map insertion is idempotent, so duplicates in the input list collapse. -/
def mkTypeNeeded (l : List String) : List String :=
  l.foldl insAbsent []

/-- The object scan of `findMatches` (membrane.go lines 138-150): walk the
objects in index order, skipping used indices; an object whose type is still
needed joins the match and its type is deleted from the needed set; as soon as
the needed set is empty the (single) complete match is returned. -/
def findMatchesLoop : List Object → Nat → List Nat → List String → List Nat →
    List (List Nat)
  | [], _, _, _, _ => []
  | obj :: rest, i, used, needed, acc =>
    if i ∈ used then
      findMatchesLoop rest (i + 1) used needed acc
    else if obj.type ∈ needed then
      if needed.erase obj.type = [] then [acc ++ [i]]
      else findMatchesLoop rest (i + 1) used (needed.erase obj.type) (acc ++ [i])
    else
      findMatchesLoop rest (i + 1) used needed acc

/-- The `findMatches` from membrane.go (receiver `m.Objects` passed explicitly):
returns the matches of `rule` against `objects`, given already-used indices. -/
def findMatches (objects : List Object) (rule : EvolutionRule)
    (used : List Nat) : List (List Nat) :=
  if rule.inputTypes = [] then []
  else findMatchesLoop objects 0 used (mkTypeNeeded rule.inputTypes) []

/-- Exchange of positions `i` and `j` in a list (no-op when out of bounds),
used to model the in-place swap of the rule sort in `Evolve`. -/
def listSwap {α : Type} (l : List α) (i j : Nat) : List α :=
  match l.get? i, l.get? j with
  | some a, some b => (l.set i b).set j a
  | _, _ => l

/-- Inner loop of the exchange sort in `Evolve` (membrane.go lines 77-81):
`for j := i+1; j < len; j++ { if l[j].Priority > l[i].Priority { swap } }`,
with the remaining iteration count as structural fuel. -/
def sortInner (i : Nat) : List EvolutionRule → Nat → Nat → List EvolutionRule
  | l, _, 0 => l
  | l, j, fuel + 1 =>
    let l2 :=
      if (l.getD j default).priority > (l.getD i default).priority then
        listSwap l i j
      else l
    sortInner i l2 (j + 1) fuel

/-- Outer loop of the exchange sort in `Evolve` (membrane.go lines 76-82). -/
def sortOuter : List EvolutionRule → Nat → Nat → List EvolutionRule
  | l, _, 0 => l
  | l, i, fuel + 1 =>
    let l2 := sortInner i l (i + 1) (l.length - (i + 1))
    sortOuter l2 (i + 1) fuel

/-- The copy-and-sort of rules by descending priority at the top of `Evolve`. -/
def sortRules (rules : List EvolutionRule) : List EvolutionRule :=
  sortOuter rules 0 rules.length

/-- One accepted match inside `Evolve` (membrane.go lines 91-108): its indices
are marked used, the matched objects are gathered from the (unchanged) object
list, and, when the transform function is non-nil, its outputs are appended to
the pending new-object list. -/
def applyMatch (objects : List Object) (rule : EvolutionRule) (mtch : List Nat)
    (used : List Nat) (news : List Object) : List Nat × List Object :=
  let used2 := used ++ mtch
  let inputs := mtch.map (fun idx => objects.getD idx default)
  match rule.transform with
  | some f => (used2, news ++ f inputs)
  | none => (used2, news)

/-- The `for _, match := range matches` loop of `Evolve`. -/
def applyMatches : List (List Nat) → List Object → EvolutionRule → List Nat →
    List Object → List Nat × List Object
  | [], _, _, used, news => (used, news)
  | mtch :: ms, objects, rule, used, news =>
    let p := applyMatch objects rule mtch used news
    applyMatches ms objects rule p.1 p.2

/-- The `for _, rule := range sortedRules` loop of `Evolve`: threads the used
set and the pending new objects through the rules in sorted order. -/
def evolveRules : List EvolutionRule → List Object → List Nat → List Object →
    List Nat × List Object
  | [], _, used, news => (used, news)
  | rule :: rest, objects, used, news =>
    let found := findMatches objects rule used
    let p := applyMatches found objects rule used news
    evolveRules rest objects p.1 p.2

/-- The rebuild loop at the end of `Evolve` (membrane.go lines 112-117): keep
the objects whose index is not in the used set, preserving order. -/
def remainingObjects : List Object → Nat → List Nat → List Object
  | [], _, _ => []
  | obj :: rest, i, used =>
    if i ∈ used then remainingObjects rest (i + 1) used
    else obj :: remainingObjects rest (i + 1) used

/-- The `Evolve` from membrane.go: sort rules by descending priority, apply them,
then rebuild the object list as the unconsumed originals followed by the newly
produced objects.  The Go method always returns a nil error. -/
def evolve (m : Membrane) : Membrane :=
  let sorted := sortRules m.rules
  let p := evolveRules sorted m.objects [] []
  { m with objects := remainingObjects m.objects 0 p.1 ++ p.2 }

/-- The pass probability computed in `PassObjects` (membrane.go lines 163-168):
`permeability * mobility`, multiplied by 1.2 for charged objects
(`math.Abs(float64(obj.Charge)) > 0` is exactly `charge ≠ 0`). -/
def passProb (m : Membrane) (obj : Object) : ℚ :=
  let p := m.permeability * obj.mobility
  if obj.charge ≠ 0 then p * (6 / 5) else p

/-- The `PassObjects` from membrane.go, on a non-nil target: each object of the
source with pass probability above the fixed 0.5 threshold is appended to the
target (in source order); the others remain in the source.  Returns the updated
(source, target) pair. -/
def passObjects (m target : Membrane) : Membrane × Membrane :=
  let moved := m.objects.filter (fun obj => decide (passProb m obj > 1 / 2))
  let remaining := m.objects.filter (fun obj => ! decide (passProb m obj > 1 / 2))
  ({ m with objects := remaining },
   { target with objects := target.objects ++ moved })

/-! ### ESN embedding (esn.go) -/

/-- The `ESNParams` from esn.go.  `ReservoirSize` is validated positive at
construction, so it is modelled as a `Nat`; `TreeDepth` is a Go `int`. -/
structure ESNParams where
  reservoirSize : Nat
  spectralRadius : ℚ
  inputScaling : ℚ
  leakRate : ℚ
  sparsity : ℚ
  ridgeParam : ℚ
  treeDepth : Int
deriving DecidableEq, Repr

/-- The `PersonaTrait` from esn.go. -/
structure PersonaTrait where
  valence : ℚ
  arousal : ℚ
  dominance : ℚ
  attention : ℚ
  memory : ℚ
  creativity : ℚ
deriving DecidableEq, Repr

/-- The `ESN` from esn.go.  The lock, logger and rng fields are not data; rng draws
are passed explicitly to the operations that consume them.  Go nil slices are
the empty list. -/
structure ESN where
  params : ESNParams
  persona : PersonaTrait
  inputWeights : List (List ℚ)
  reservoirWeights : List (List ℚ)
  outputWeights : List (List ℚ)
  state : List ℚ
  membranes : List Membrane
  trained : Bool

/-- The `setInputWeights` from esn.go: an N × inputDim matrix of
`(draw*2 - 1) * InputScaling` entries, where `draw` stands for the successive
`rng.Float64()` calls (indexed by matrix position). -/
def setInputWeights (draw : Nat → Nat → ℚ) (esn : ESN) (inputDim : Nat) : ESN :=
  { esn with
    inputWeights :=
      (List.range esn.params.reservoirSize).map (fun i =>
        (List.range inputDim).map (fun j =>
          (draw i j * 2 - 1) * esn.params.inputScaling)) }

/-- The `applyMembraneEvolution` from esn.go: for each membrane of the engine, one
`rng.Float64()` draw; when it is below the membrane's permeability the whole
state vector is scaled by `1 - 0.05*level`.  The draws list supplies the
successive rng values. -/
def applyMembraneEvolution (draws : List ℚ) (esn : ESN) : ESN :=
  { esn with
    state :=
      (esn.membranes.zip draws).foldl
        (fun st md =>
          if md.2 < md.1.permeability then
            st.map (fun x => x * (1 - (5 / 100) * (md.1.level : ℚ)))
          else st)
        esn.state }

/-- One iteration (index `i`) of the `applyRicciFlow` loop from esn.go,
operating on the state updated by the previous iterations (the Go loop mutates
`esn.state` in place while reading it). -/
def ricciStep (rweights : List (List ℚ)) (memory : ℚ) (st : List ℚ) (i : Nat) :
    List ℚ :=
  let row := rweights.getD i []
  let p :=
    (List.range st.length).foldl
      (fun acc j =>
        if row.getD j 0 ≠ 0 then (acc.1 + st.getD j 0, acc.2 + 1) else acc)
      ((0 : ℚ), (0 : ℚ))
  if p.2 > 0 then
    let avg := p.1 / p.2
    let curvature := st.getD i 0 - avg
    st.set i (st.getD i 0 - (1 / 100) * memory * curvature)
  else st

/-- The `applyRicciFlow` from esn.go. -/
def applyRicciFlow (esn : ESN) : ESN :=
  { esn with
    state :=
      (List.range esn.state.length).foldl
        (ricciStep esn.reservoirWeights esn.persona.memory) esn.state }

/-- The `Update` from esn.go.  `tanh` abstracts `math.Tanh`; `draw` supplies the
rng values for the lazy `setInputWeights` call; `draws` supplies the rng values
of the membrane-evolution pass.  Returns the updated engine and the error
(`none` on success). -/
def update (tanh : ℚ → ℚ) (draw : Nat → Nat → ℚ) (draws : List ℚ) (esn : ESN)
    (input : List ℚ) : ESN × Option String :=
  let esn1 :=
    if esn.inputWeights.length = 0 then setInputWeights draw esn input.length
    else esn
  if input.length ≠ (esn1.inputWeights.getD 0 []).length then
    (esn1, some ("input dimension mismatch: expected "
      ++ toString (esn1.inputWeights.getD 0 []).length
      ++ ", got " ++ toString input.length))
  else
    let n := esn1.state.length
    let newState :=
      (List.range n).map (fun i =>
        let row := esn1.inputWeights.getD i []
        let inputSum :=
          (List.range input.length).foldl
            (fun acc j => acc + row.getD j 0 * input.getD j 0) 0
        let rrow := esn1.reservoirWeights.getD i []
        let recurrentSum :=
          (List.range n).foldl
            (fun acc j => acc + rrow.getD j 0 * esn1.state.getD j 0) 0
        let activation :=
          tanh (inputSum + recurrentSum) * (1 + (1 / 10) * esn1.persona.valence)
        let leakRate :=
          esn1.params.leakRate * (1 + (2 / 10) * esn1.persona.attention)
        (1 - leakRate) * esn1.state.getD i 0 + leakRate * activation)
    let esn2 := { esn1 with state := newState }
    let esn3 := applyMembraneEvolution draws esn2
    let esn4 := applyRicciFlow esn3
    (esn4, none)

/-- The `Reset` from esn.go: zero every component of the state vector in place. -/
def reset (esn : ESN) : ESN :=
  { esn with state := esn.state.map (fun _ => 0) }

/-- The forward pass of `TrainOutput` for one output row: the dot product of a
weight row with a state row over `inputDim` positions. -/
def forwardRow (inputDim : Nat) (row stateRow : List ℚ) : ℚ :=
  (List.range inputDim).foldl
    (fun acc j => acc + row.getD j 0 * stateRow.getD j 0) 0

/-- The backward pass of `TrainOutput` for one sample (esn.go lines 444-451). -/
def backwardPass (ridge lr : ℚ) (inputDim outputDim : Nat)
    (stateRow targetRow predictions : List ℚ) (w : List (List ℚ)) :
    List (List ℚ) :=
  (List.range outputDim).foldl
    (fun wcur i =>
      let err := predictions.getD i 0 - targetRow.getD i 0
      let row := wcur.getD i []
      let newRow :=
        (List.range inputDim).foldl
          (fun rcur j =>
            let g := err * stateRow.getD j 0 + ridge * rcur.getD j 0
            rcur.set j (rcur.getD j 0 - lr * g))
          row
      wcur.set i newRow)
    w

/-- One gradient-descent pass over all samples (the `for s := range states`
loop of `TrainOutput`). -/
def trainEpoch (ridge lr : ℚ) (inputDim outputDim : Nat)
    (states targets : List (List ℚ)) (w : List (List ℚ)) : List (List ℚ) :=
  (states.zip targets).foldl
    (fun wcur p =>
      let predictions :=
        (List.range outputDim).map (fun i =>
          forwardRow inputDim (wcur.getD i []) p.1)
      backwardPass ridge lr inputDim outputDim p.1 p.2 predictions wcur)
    w

/-- The full gradient-descent loop of `TrainOutput`: `epochs` passes starting
from the weight matrix `w`. -/
def gdLoop (epochs : Nat) (ridge lr : ℚ) (inputDim outputDim : Nat)
    (states targets : List (List ℚ)) (w : List (List ℚ)) : List (List ℚ) :=
  (List.range epochs).foldl
    (fun wcur _ => trainEpoch ridge lr inputDim outputDim states targets wcur) w

/-- The `TrainOutput` from esn.go: after the two validation checks, the output
weight matrix is (re)allocated to zeros of shape outputDim × inputDim and
trained by 100 epochs of gradient descent with learning rate 0.01; finally the
`trained` flag is set. -/
def trainOutput (esn : ESN) (states targets : List (List ℚ)) :
    ESN × Option String :=
  if states.length ≠ targets.length then
    (esn, some ("number of states (" ++ toString states.length
      ++ ") must match number of targets (" ++ toString targets.length ++ ")"))
  else if states.length = 0 then
    (esn, some "no training data provided")
  else
    let inputDim := (states.getD 0 []).length
    let outputDim := (targets.getD 0 []).length
    let w0 : List (List ℚ) :=
      List.replicate outputDim (List.replicate inputDim 0)
    let w := gdLoop 100 esn.params.ridgeParam (1 / 100) inputDim outputDim
      states targets w0
    ({ esn with outputWeights := w, trained := true }, none)

/-- Modelled from the spec (§4.1/§9 "training resumes from the existing
matrix rather than re-zeroing it"): the claimed behaviour of `TrainOutput` on
an already-trained engine — identical to `trainOutput` except that gradient
descent starts from the engine's existing output weight matrix. -/
def trainOutputResume (esn : ESN) (states targets : List (List ℚ)) :
    ESN × Option String :=
  if states.length ≠ targets.length then
    (esn, some ("number of states (" ++ toString states.length
      ++ ") must match number of targets (" ++ toString targets.length ++ ")"))
  else if states.length = 0 then
    (esn, some "no training data provided")
  else
    let inputDim := (states.getD 0 []).length
    let outputDim := (targets.getD 0 []).length
    let w := gdLoop 100 esn.params.ridgeParam (1 / 100) inputDim outputDim
      states targets esn.outputWeights
    ({ esn with outputWeights := w, trained := true }, none)

/-! ### Membrane system embedding (membrane.go, `MembraneSystem`)

Go parent/child pointers are flattened: a node of the store holds its membrane
data plus the registry index of its parent and of its children.  The `All`
registry is the store itself (in creation order); `Root` is index 0. -/

/-- One registry entry of a `MembraneSystem`: membrane data plus flattened
parent/children pointers. -/
structure MNode where
  membrane : Membrane
  parent : Option Nat
  children : List Nat

instance : Inhabited MNode := ⟨⟨default, none, []⟩⟩

/-- The `MembraneSystem` from membrane.go: the flat registry (`All`, creation
order, root at index 0) and the step counter. -/
structure MembraneSystem where
  all : List MNode
  stepCount : Int

/-- Transform of the `spam_detection` default rule (membrane.go lines 206-220). -/
def spamTransform (objs : List Object) : List Object :=
  let totalValue :=
    objs.foldl (fun acc obj => if obj.charge < 0 then acc + obj.value else acc) 0
  [{ type := "spam_score", value := totalValue, charge := -1, mobility := 4 / 5 }]

/-- Transform of the `ham_detection` default rule (membrane.go lines 230-243). -/
def hamTransform (objs : List Object) : List Object :=
  let totalValue :=
    objs.foldl (fun acc obj => if obj.charge > 0 then acc + obj.value else acc) 0
  [{ type := "ham_score", value := totalValue, charge := 1, mobility := 4 / 5 }]

/-- Transform of the `affective_modulation` default rule (membrane.go lines
253-263). -/
def affectiveTransform (objs : List Object) : List Object :=
  objs.map (fun obj =>
    { obj with value := obj.value * (11 / 10), type := "modulated_signal" })

/-- The `CreateDefaultRules` from membrane.go. -/
def createDefaultRules : List EvolutionRule :=
  [{ name := "spam_detection", priority := 100,
     inputTypes := ["token", "negative_signal"], outputTypes := ["spam_score"],
     conditions := [], transform := some spamTransform },
   { name := "ham_detection", priority := 100,
     inputTypes := ["token", "positive_signal"], outputTypes := ["ham_score"],
     conditions := [], transform := some hamTransform },
   { name := "affective_modulation", priority := 50,
     inputTypes := ["emotion_signal"], outputTypes := ["modulated_signal"],
     conditions := [], transform := some affectiveTransform }]

/-- The `AddChild` plus the registry append of `buildHierarchy`: the new node gets
the next free index, is recorded in its parent's child list, and is appended to
the registry. -/
def addChild (nodes : List MNode) (parentIdx : Nat) (child : Membrane) :
    List MNode :=
  let childIdx := nodes.length
  let p := nodes.getD parentIdx default
  let nodes2 := nodes.set parentIdx { p with children := p.children ++ [childIdx] }
  nodes2 ++ [{ membrane := child, parent := some parentIdx, children := [] }]

/-- One loop iteration of `buildHierarchy` (membrane.go lines 299-314 before
the recursive call): create the child named `"<parent-id><suffix>"` with level
`currentDepth` and permeability `0.5 + 0.1·currentDepth`, give it a fresh copy
of the default rules, and register it under its parent. -/
def spawnChild (nodes : List MNode) (parentIdx : Nat) (currentDepth : Int)
    (suffix : String) : List MNode :=
  addChild nodes parentIdx
    { id := (nodes.getD parentIdx default).membrane.id ++ suffix,
      level := currentDepth,
      permeability := 1 / 2 + (currentDepth : ℚ) / 10,
      objects := [], rules := createDefaultRules }

/-- The `buildHierarchy` from membrane.go, with the decreasing quantity
`maxDepth - currentDepth` made an explicit structural fuel so that the
definition computes by kernel reduction.  `buildHierarchy` below instantiates
the fuel exactly. -/
def buildHierarchyFuel : Nat → Int → Int → Nat → List MNode → List MNode
  | 0, _, _, _, nodes => nodes
  | fuel + 1, maxDepth, currentDepth, parentIdx, nodes =>
    if currentDepth ≥ maxDepth then nodes
    else
      let idx0 := nodes.length
      let nodes0 := spawnChild nodes parentIdx currentDepth "_0"
      let nodes1 := buildHierarchyFuel fuel maxDepth (currentDepth + 1) idx0 nodes0
      let idx1 := nodes1.length
      let nodes2 := spawnChild nodes1 parentIdx currentDepth "_1"
      buildHierarchyFuel fuel maxDepth (currentDepth + 1) idx1 nodes2

/-- The `buildHierarchy` from membrane.go (recursion measure instantiated). -/
def buildHierarchy (maxDepth currentDepth : Int) (parentIdx : Nat)
    (nodes : List MNode) : List MNode :=
  buildHierarchyFuel (maxDepth - currentDepth).toNat maxDepth currentDepth
    parentIdx nodes

/-- The root membrane of `NewMembraneSystem`: named "root", level 0,
permeability 1.0, no objects and no rules. -/
def rootNode : MNode :=
  { membrane :=
      { id := "root", level := 0, permeability := 1, objects := [],
        rules := [] },
    parent := none, children := [] }

/-- The `NewMembraneSystem` from membrane.go: a root membrane named "root" with
level 0 and permeability 1.0, then the recursive hierarchy build starting at
depth 1. -/
def newMembraneSystem (depth : Int) : MembraneSystem :=
  { all := buildHierarchy depth 1 0 [rootNode], stepCount := 0 }

/-- The `PassObjects` acting on the store: source and target are registry indices;
the target's membrane receives the passing objects, the source keeps the rest.
The target update is written first, so that the (unreachable in the built
hierarchies) self-pass case agrees with the Go aliasing behaviour. -/
def storePass (nodes : List MNode) (src tgt : Nat) : List MNode :=
  let s := nodes.getD src default
  let t := nodes.getD tgt default
  let p := passObjects s.membrane t.membrane
  let nodes2 := nodes.set tgt { t with membrane := p.2 }
  nodes2.set src { s with membrane := p.1 }

/-- The evolution phase of `Step` (membrane.go lines 320-324): evolve every
registered membrane, in registry order. -/
def evolveAll (nodes : List MNode) : List MNode :=
  (List.range nodes.length).foldl
    (fun ns i =>
      ns.set i { ns.getD i default with membrane := evolve (ns.getD i default).membrane })
    nodes

/-- The transport of one membrane in `Step` (membrane.go lines 327-341): pass
to the parent when one exists, then to each child in child order, each pass
acting on the store as mutated by the previous passes. -/
def transportNode (nodes : List MNode) (i : Nat) : List MNode :=
  let nd := nodes.getD i default
  let nodes1 :=
    match nd.parent with
    | some p => storePass nodes i p
    | none => nodes
  nd.children.foldl (fun ns c => storePass ns i c) nodes1

/-- The transport phase of `Step`: every registered membrane, in registry
order. -/
def transportAll (nodes : List MNode) : List MNode :=
  (List.range nodes.length).foldl transportNode nodes

/-- The `Step` from membrane.go: evolve all membranes, then pass objects between
membranes, then increment the step counter.  The Go method always returns a
nil error (`Evolve` and the guarded `PassObjects` calls never fail). -/
def MembraneSystem.step (ms : MembraneSystem) : MembraneSystem :=
  { all := transportAll (evolveAll ms.all), stepCount := ms.stepCount + 1 }

/-- Reachability from the root (index 0) along child links of the store. -/
inductive Reaches (nodes : List MNode) : Nat → Prop
  | root : Reaches nodes 0
  | child (j c : Nat) : Reaches nodes j →
      c ∈ (nodes.getD j default).children → Reaches nodes c

/-- Store `new` extends store `old`: it is at least as long, and every old entry keeps its
membrane and parent, while its child list only grows. -/
def PreservedExtends (old new : List MNode) : Prop :=
  old.length ≤ new.length ∧
  ∀ i, i < old.length →
    (new.getD i default).membrane = (old.getD i default).membrane ∧
    (new.getD i default).parent = (old.getD i default).parent ∧
    ∀ c ∈ (old.getD i default).children, c ∈ (new.getD i default).children

/-- Invariant of the hierarchy construction: the store is nonempty; every
non-root entry has a parent of smaller index with the level and permeability
relations of `buildHierarchy`; child indices stay inside the store; and the
store holds exactly the indices reachable from the root. -/
def NodesWF (nodes : List MNode) : Prop :=
  0 < nodes.length ∧
  (∀ i, 0 < i → i < nodes.length →
    ∃ p, (nodes.getD i default).parent = some p ∧ p < i ∧
      (nodes.getD i default).membrane.level
        = (nodes.getD p default).membrane.level + 1 ∧
      (nodes.getD i default).membrane.permeability
        = 1 / 2 + (((nodes.getD i default).membrane.level : Int) : ℚ) / 10) ∧
  (∀ i, i < nodes.length →
    ∀ c ∈ (nodes.getD i default).children, c < nodes.length) ∧
  (∀ i, i < nodes.length → Reaches nodes i) ∧
  (∀ i, Reaches nodes i → i < nodes.length)

/-! ### Concrete instances used by witnesses and counterexamples -/

/-- A neutral immobile object of type "a". -/
def aObj : Object := { type := "a", value := 1, charge := 0, mobility := 0 }

/-- A neutral immobile object of type "b". -/
def bObj : Object := { type := "b", value := 2, charge := 0, mobility := 0 }

/-- A rule requiring two objects of type "a" (duplicate required type). -/
def dupRule : EvolutionRule :=
  { name := "dup", priority := 0, inputTypes := ["a", "a"], outputTypes := ["b"],
    conditions := [], transform := some (fun _ => [bObj]) }

/-- A membrane holding a single object of type "a" and the duplicate-type rule. -/
def dupMembrane : Membrane :=
  { id := "m", level := 0, permeability := 1, objects := [aObj],
    rules := [dupRule] }

/-- A rule with a nil transform function consuming one object of type "a". -/
def vanishRule : EvolutionRule :=
  { name := "vanish", priority := 0, inputTypes := ["a"], outputTypes := [],
    conditions := [], transform := none }

/-- A membrane holding one "a" object and only the nil-transform rule. -/
def vanishMembrane : Membrane :=
  { id := "v", level := 0, permeability := 1, objects := [aObj],
    rules := [vanishRule] }

/-- A rule with an empty required input type list. -/
def emptyRule : EvolutionRule :=
  { name := "empty", priority := 7, inputTypes := [], outputTypes := [],
    conditions := [], transform := some (fun objs => objs) }

/-- A membrane holding one "a" object and only the empty-input-types rule. -/
def emptyRuleMembrane : Membrane :=
  { id := "e", level := 0, permeability := 1, objects := [aObj],
    rules := [emptyRule] }

/-- A fully permeable membrane holding one mobile charged object and one
immobile object. -/
def permeableMembrane : Membrane :=
  { id := "p", level := 0, permeability := 1,
    objects := [{ type := "x", value := 3, charge := 1, mobility := 1 }, aObj],
    rules := [] }

/-- An empty target membrane. -/
def targetMembrane : Membrane :=
  { id := "t", level := 1, permeability := 1, objects := [], rules := [] }

/-- A trained engine with a nonzero 1 × 1 output weight matrix and zero ridge
penalty. -/
def esnTrained : ESN :=
  { params := { reservoirSize := 1, spectralRadius := 95 / 100, inputScaling := 1,
                leakRate := 3 / 10, sparsity := 1 / 10, ridgeParam := 0,
                treeDepth := 3 },
    persona := { valence := 0, arousal := 0, dominance := 0, attention := 0,
                 memory := 0, creativity := 0 },
    inputWeights := [], reservoirWeights := [[0]], outputWeights := [[1]],
    state := [0], membranes := [], trained := true }

/-- An engine whose input weights are established with input dimension 1. -/
def esnDim1 : ESN :=
  { params := { reservoirSize := 1, spectralRadius := 95 / 100, inputScaling := 1,
                leakRate := 3 / 10, sparsity := 1 / 10, ridgeParam := 0,
                treeDepth := 3 },
    persona := { valence := 0, arousal := 0, dominance := 0, attention := 0,
                 memory := 0, creativity := 0 },
    inputWeights := [[5]], reservoirWeights := [[0]], outputWeights := [],
    state := [0], membranes := [], trained := false }

/-! ### Helper lemmas -/

lemma remainingObjects_sublist :
    ∀ (objs : List Object) (i : Nat) (used : List Nat),
      List.Sublist (remainingObjects objs i used) objs := by
  intro objs
  induction objs with
  | nil => intro i used; simp [remainingObjects]
  | cons obj rest ih =>
    intro i used
    simp only [remainingObjects]
    split
    · exact (ih (i + 1) used).cons obj
    · exact (ih (i + 1) used).cons₂ obj

lemma remainingObjects_used_nil :
    ∀ (objs : List Object) (i : Nat), remainingObjects objs i [] = objs := by
  intro objs
  induction objs with
  | nil => intro i; simp [remainingObjects]
  | cons obj rest ih => intro i; simp [remainingObjects, ih]

lemma findMatchesLoop_length_le_one :
    ∀ (objs : List Object) (i : Nat) (used : List Nat) (needed : List String)
      (acc : List Nat), (findMatchesLoop objs i used needed acc).length ≤ 1 := by
  intro objs
  induction objs with
  | nil => intro i used needed acc; simp [findMatchesLoop]
  | cons obj rest ih =>
    intro i used needed acc
    simp only [findMatchesLoop]
    split
    · exact ih _ _ _ _
    · split
      · split
        · simp
        · exact ih _ _ _ _
      · exact ih _ _ _ _

lemma findMatches_length_le_one (objs : List Object) (rule : EvolutionRule)
    (used : List Nat) : (findMatches objs rule used).length ≤ 1 := by
  unfold findMatches
  split
  · simp
  · exact findMatchesLoop_length_le_one _ _ _ _ _

lemma applyMatches_none (objs : List Object) (r : EvolutionRule)
    (ht : r.transform = none) :
    ∀ (ms : List (List Nat)) (used : List Nat) (news : List Object),
      applyMatches ms objs r used news = (used ++ ms.flatten, news) := by
  intro ms
  induction ms with
  | nil => intro used news; simp [applyMatches]
  | cons mtch rest ih =>
    intro used news
    simp [applyMatches, applyMatch, ht, ih, List.append_assoc]

lemma sortRules_singleton (r : EvolutionRule) : sortRules [r] = [r] := rfl

/-! ### C4, C5, C9, C10, C2 -/

lemma applyMatches_extends (objs : List Object) (r : EvolutionRule) :
    ∀ (ms : List (List Nat)) (used : List Nat) (news : List Object),
      ∃ du dn, applyMatches ms objs r used news = (used ++ du, news ++ dn) := by
  intro ms
  induction ms with
  | nil => intro used news; exact ⟨[], [], by simp [applyMatches]⟩
  | cons mtch rest ih =>
    intro used news
    simp only [applyMatches, applyMatch]
    rcases htr : r.transform with _ | f
    · obtain ⟨du, dn, hd⟩ := ih (used ++ mtch) news
      refine ⟨mtch ++ du, dn, ?_⟩
      rw [← List.append_assoc]
      exact hd
    · obtain ⟨du, dn, hd⟩ := ih (used ++ mtch)
        (news ++ f (mtch.map (fun idx => objs.getD idx default)))
      refine ⟨mtch ++ du,
        f (mtch.map (fun idx => objs.getD idx default)) ++ dn, ?_⟩
      rw [← List.append_assoc, ← List.append_assoc]
      exact hd

lemma evolveRules_extends (objs : List Object) :
    ∀ (rules : List EvolutionRule) (used : List Nat) (news : List Object),
      ∃ du dn, evolveRules rules objs used news = (used ++ du, news ++ dn) := by
  intro rules
  induction rules with
  | nil => intro used news; exact ⟨[], [], by simp [evolveRules]⟩
  | cons r rest ih =>
    intro used news
    simp only [evolveRules]
    obtain ⟨du1, dn1, hd1⟩ :=
      applyMatches_extends objs r (findMatches objs r used) used news
    rw [hd1]
    obtain ⟨du2, dn2, hd2⟩ := ih (used ++ du1) (news ++ dn1)
    refine ⟨du1 ++ du2, dn1 ++ dn2, ?_⟩
    rw [← List.append_assoc, ← List.append_assoc]
    exact hd2

/-- C4: for every membrane, one evolve call accepts at most one match per rule
(the match list of every rule has length at most 1), and the resulting object
list is exactly the originals not consumed by the rule loop — an
order-preserving sublist of the original list — followed by the objects the
rule loop produced; the loop only ever appends to the consumed-index set and to
the pending production list (so production order is preserved and nothing
already produced is dropped or reordered). -/
theorem evolve_structure (m : Membrane) :
    (evolve m).objects =
      remainingObjects m.objects 0
          (evolveRules (sortRules m.rules) m.objects [] []).1
        ++ (evolveRules (sortRules m.rules) m.objects [] []).2 ∧
    List.Sublist
      (remainingObjects m.objects 0
        (evolveRules (sortRules m.rules) m.objects [] []).1)
      m.objects ∧
    (∀ (rules : List EvolutionRule) (used : List Nat) (news : List Object),
      ∃ du dn, evolveRules rules m.objects used news = (used ++ du, news ++ dn)) ∧
    (∀ (rule : EvolutionRule) (used : List Nat),
      (findMatches m.objects rule used).length ≤ 1) :=
  ⟨rfl, remainingObjects_sublist _ _ _,
   fun rules used news => evolveRules_extends m.objects rules used news,
   fun rule used => findMatches_length_le_one _ rule used⟩

/-- C5: passObjects moves exactly the objects whose pass probability
`permeability · mobility · (1.2 if charged)` exceeds the fixed 0.5 threshold
into the target (appended in source order), keeps the rest in the source, and
the decision is a deterministic function of membrane and object; in particular
a mobility-1 charged object in a permeability-1 membrane always passes and a
mobility-0 object never passes. -/
theorem passObjects_threshold (src tgt : Membrane) :
    (passObjects src tgt).1.objects =
        src.objects.filter (fun obj => ! decide (passProb src obj > 1 / 2)) ∧
    (passObjects src tgt).2.objects =
        tgt.objects ++
          src.objects.filter (fun obj => decide (passProb src obj > 1 / 2)) ∧
    (∀ obj : Object, src.permeability = 1 → obj.mobility = 1 →
        obj.charge ≠ 0 → passProb src obj > 1 / 2) ∧
    (∀ obj : Object, obj.mobility = 0 → ¬ passProb src obj > 1 / 2) := by
  refine ⟨rfl, rfl, ?_, ?_⟩
  · intro obj hperm hmob hch
    simp only [passProb, hperm, hmob, if_pos hch]
    norm_num
  · intro obj hmob
    simp only [passProb, hmob, mul_zero, zero_mul]
    split <;> norm_num

/-- C5 witness: in the concrete permeability-1 membrane, the mobile charged
object passes and the immobile object does not. -/
theorem passObjects_threshold_witness :
    passProb permeableMembrane
        { type := "x", value := 3, charge := 1, mobility := 1 } > 1 / 2 ∧
    ¬ passProb permeableMembrane aObj > 1 / 2 :=
  ⟨(passObjects_threshold permeableMembrane targetMembrane).2.2.1 _ rfl rfl
      (by decide),
   (passObjects_threshold permeableMembrane targetMembrane).2.2.2 aObj rfl⟩

/-- C9: a rule with a nil transform function still consumes the objects of its
accepted match while producing nothing: after evolve, the object list is the
original list minus the matched indices, with nothing appended. -/
theorem nilTransform_consumes (m : Membrane) (r : EvolutionRule)
    (hr : m.rules = [r]) (ht : r.transform = none) :
    (evolve m).objects =
      remainingObjects m.objects 0 ((findMatches m.objects r []).flatten) := by
  simp only [evolve, hr, sortRules_singleton, evolveRules,
    applyMatches_none m.objects r ht, List.nil_append, List.append_nil]

/-- C9 witness: the single "a" object of the concrete membrane is matched by
the nil-transform rule and vanishes. -/
theorem nilTransform_consumes_witness :
    (evolve vanishMembrane).objects =
      remainingObjects vanishMembrane.objects 0
        ((findMatches vanishMembrane.objects vanishRule []).flatten) ∧
    (evolve vanishMembrane).objects = [] :=
  ⟨nilTransform_consumes vanishMembrane vanishRule rfl rfl, by decide⟩

/-- C10: a rule whose required input type list is empty never matches: its
match list is empty, it changes nothing when processed by the rule loop, and a
membrane holding only such a rule evolves to exactly its original objects. -/
theorem emptyInputTypes_no_match (objs : List Object) (r : EvolutionRule)
    (h : r.inputTypes = []) :
    (∀ used : List Nat, findMatches objs r used = []) ∧
    (∀ (rest : List EvolutionRule) (u : List Nat) (news : List Object),
      evolveRules (r :: rest) objs u news = evolveRules rest objs u news) ∧
    (∀ m : Membrane, m.objects = objs → m.rules = [r] →
      (evolve m).objects = m.objects) := by
  refine ⟨?_, ?_, ?_⟩
  · intro used; simp [findMatches, h]
  · intro rest u news; simp [evolveRules, findMatches, h, applyMatches]
  · intro m hobj hrules
    simp [evolve, hrules, sortRules_singleton, evolveRules, findMatches, h,
      applyMatches, remainingObjects_used_nil]

/-- C10 witness: the concrete membrane with one "a" object and only the
empty-input-types rule is unchanged by evolve, and that rule has no match. -/
theorem emptyInputTypes_no_match_witness :
    (∀ used : List Nat, findMatches emptyRuleMembrane.objects emptyRule used = []) ∧
    (evolve emptyRuleMembrane).objects = emptyRuleMembrane.objects :=
  ⟨(emptyInputTypes_no_match emptyRuleMembrane.objects emptyRule rfl).1,
   (emptyInputTypes_no_match emptyRuleMembrane.objects emptyRule rfl).2.2
      emptyRuleMembrane rfl rfl⟩

/-- C2 counterexample: the rule requiring two objects of type "a" IS matched by
evolve on a membrane holding a single "a" object: the object is consumed and
the transform runs (producing the "b" object), so the object list changes. -/
theorem dupTypes_match_counterexample :
    (evolve dupMembrane).objects = [bObj] ∧
    (evolve dupMembrane).objects ≠ dupMembrane.objects := by
  constructor
  · decide
  · decide

/-! ### Lemmas about the type-set construction of findMatches -/

lemma mem_foldl_insAbsent :
    ∀ (l acc : List String) (x : String), x ∈ acc → x ∈ l.foldl insAbsent acc := by
  intro l
  induction l with
  | nil => intro acc x hx; simpa using hx
  | cons t ts ih =>
    intro acc x hx
    simp only [List.foldl_cons]
    apply ih
    unfold insAbsent
    split
    · exact hx
    · exact List.mem_append_left _ hx

lemma foldl_insAbsent_nodup :
    ∀ (l acc : List String), acc.Nodup → (l.foldl insAbsent acc).Nodup := by
  intro l
  induction l with
  | nil => intro acc h; simpa using h
  | cons t ts ih =>
    intro acc h
    simp only [List.foldl_cons]
    apply ih
    unfold insAbsent
    split
    · exact h
    · next hmem => simp [List.nodup_append, h, hmem]

lemma mkTypeNeeded_nodup (l : List String) : (mkTypeNeeded l).Nodup :=
  foldl_insAbsent_nodup l [] (by simp)

lemma foldl_insAbsent_of_nodup_disjoint :
    ∀ (l acc : List String), l.Nodup → (∀ x ∈ l, x ∉ acc) →
      l.foldl insAbsent acc = acc ++ l := by
  intro l
  induction l with
  | nil => intro acc _ _; simp
  | cons t ts ih =>
    intro acc hnd hdisj
    have ht : t ∉ acc := hdisj t (by simp)
    have hts : ts.Nodup := hnd.of_cons
    have htts : t ∉ ts := by
      have := hnd; simp [List.nodup_cons] at this; exact this.1
    simp only [List.foldl_cons, insAbsent, if_neg ht]
    rw [ih (acc ++ [t]) hts]
    · simp
    · intro x hx
      simp only [List.mem_append, List.mem_singleton]
      rintro (hxa | hxt)
      · exact hdisj x (List.mem_cons_of_mem t hx) hxa
      · exact htts (hxt ▸ hx)

lemma mkTypeNeeded_idem (l : List String) :
    mkTypeNeeded (mkTypeNeeded l) = mkTypeNeeded l := by
  have h := foldl_insAbsent_of_nodup_disjoint (mkTypeNeeded l) []
    (mkTypeNeeded_nodup l) (by simp)
  simpa [mkTypeNeeded] using h

lemma mkTypeNeeded_ne_nil (t : String) (ts : List String) :
    mkTypeNeeded (t :: ts) ≠ [] := by
  intro h
  have ht : t ∈ mkTypeNeeded (t :: ts) := by
    have : t ∈ insAbsent [] t := by simp [insAbsent]
    simpa [mkTypeNeeded, List.foldl_cons] using mem_foldl_insAbsent ts _ t this
  rw [h] at ht
  exact (List.not_mem_nil t) ht

lemma findMatches_dedup_eq (objects : List Object) (rule : EvolutionRule)
    (used : List Nat) :
    findMatches objects rule used =
      findMatches objects
        { rule with inputTypes := mkTypeNeeded rule.inputTypes } used := by
  unfold findMatches
  rcases hl : rule.inputTypes with _ | ⟨t, ts⟩
  · simp [mkTypeNeeded]
  · rw [if_neg (by simp), if_neg (by simpa using mkTypeNeeded_ne_nil t ts)]
    simp only [hl ▸ mkTypeNeeded_idem rule.inputTypes]

lemma drop_cons_facts {α : Type} [Inhabited α] :
    ∀ (full : List α) (i : Nat) (a : α) (rest : List α),
      full.drop i = a :: rest →
      full.getD i default = a ∧ rest = full.drop (i + 1) := by
  intro full
  induction full with
  | nil => intro i a rest h; simp at h
  | cons b fs ih =>
    intro i a rest h
    match i with
    | 0 =>
      simp only [List.drop_zero] at h
      cases h
      simp
    | i + 1 =>
      simp only [List.drop_succ_cons] at h
      have := ih i a rest h
      simpa [List.getD_cons_succ, List.drop_succ_cons] using this

lemma findMatchesLoop_types_nodup (full : List Object) :
    ∀ (objs : List Object) (i : Nat) (used : List Nat) (needed : List String)
      (acc : List Nat),
      objs = full.drop i →
      needed.Nodup →
      (acc.map (fun idx => (full.getD idx default).type)).Nodup →
      (∀ idx ∈ acc, (full.getD idx default).type ∉ needed) →
      ∀ mtch ∈ findMatchesLoop objs i used needed acc,
        (mtch.map (fun idx => (full.getD idx default).type)).Nodup := by
  intro objs
  induction objs with
  | nil =>
    intro i used needed acc _ _ _ _ mtch hm
    simp [findMatchesLoop] at hm
  | cons obj rest ih =>
    intro i used needed acc hdrop hneed hacc hdisj mtch hm
    obtain ⟨hobj, hrest⟩ := drop_cons_facts full i obj rest hdrop.symm
    simp only [findMatchesLoop] at hm
    split at hm
    · exact ih (i + 1) used needed acc hrest hneed hacc hdisj mtch hm
    · rename_i hnotused
      split at hm
      · rename_i hintype
        have hnotacc : obj.type ∉ acc.map (fun idx => (full.getD idx default).type) := by
          intro hcon
          obtain ⟨idx, hidx, hfx⟩ := List.mem_map.1 hcon
          exact hdisj idx hidx (hfx ▸ hintype)
        have hmapnd : ((acc ++ [i]).map
            (fun idx => (full.getD idx default).type)).Nodup := by
          rw [List.map_append]
          refine List.nodup_append.2 ⟨hacc, List.nodup_singleton _, ?_⟩
          intro a ha hb
          simp only [List.map_cons, List.map_nil, List.mem_singleton] at hb
          rw [hb, hobj] at ha
          exact hnotacc ha
        split at hm
        · simp only [List.mem_singleton] at hm
          subst hm
          exact hmapnd
        · refine ih (i + 1) used (needed.erase obj.type) (acc ++ [i]) hrest
            (hneed.erase _) hmapnd ?_ mtch hm
          intro idx hidx
          simp only [List.mem_append, List.mem_singleton] at hidx
          rcases hidx with hida | hidi
          · exact fun hco => hdisj idx hida (List.mem_of_mem_erase hco)
          · subst hidi
            rw [hobj]
            exact hneed.not_mem_erase
      · exact ih (i + 1) used needed acc hrest hneed hacc hdisj mtch hm

lemma findMatches_types_nodup (objects : List Object) (rule : EvolutionRule)
    (used : List Nat) :
    ∀ mtch ∈ findMatches objects rule used,
      (mtch.map (fun idx => (objects.getD idx default).type)).Nodup := by
  unfold findMatches
  split
  · simp
  · exact findMatchesLoop_types_nodup objects objects 0 used _ [] (by simp)
      (mkTypeNeeded_nodup _) (by simp) (by simp)

/-! ### C2 (amended), C8, C3, C1 -/

/-- C2 (amended): duplicate entries in a rule's required input type list
collapse — the matcher behaves exactly as for the rule with the duplicate
types removed, and every match it accepts contains at most one object of each
type, so a rule is never supplied two objects of the same type. -/
theorem dupTypes_collapse (objects : List Object) (rule : EvolutionRule)
    (used : List Nat) :
    findMatches objects rule used =
      findMatches objects
        { rule with inputTypes := mkTypeNeeded rule.inputTypes } used ∧
    ∀ mtch ∈ findMatches objects rule used,
      (mtch.map (fun idx => (objects.getD idx default).type)).Nodup :=
  ⟨findMatches_dedup_eq objects rule used, findMatches_types_nodup objects rule used⟩

/-- C2 witness: for the membrane with one "a" object and the rule requiring
"a" twice, the single accepted match [0] has pairwise-distinct object types. -/
theorem dupTypes_collapse_witness :
    findMatches [aObj] dupRule [] =
      findMatches [aObj]
        { dupRule with inputTypes := mkTypeNeeded dupRule.inputTypes } [] ∧
    (([0] : List Nat).map (fun idx => (([aObj].getD idx default)).type)).Nodup :=
  ⟨(dupTypes_collapse [aObj] dupRule []).1,
   (dupTypes_collapse [aObj] dupRule []).2 [0] (by decide)⟩

lemma map_const_zero (l : List ℚ) :
    l.map (fun _ => (0 : ℚ)) = List.replicate l.length 0 := by
  induction l <;> simp [List.replicate, *]

/-- C8: reset sets every component of the state vector to zero and changes
nothing else: weights, flags, parameters, persona and membranes are exactly
as before the call.  (It holds for every engine value, hence in particular
after any sequence of update calls.) -/
theorem reset_zeroes_state_only (esn : ESN) :
    (reset esn).state = List.replicate esn.state.length 0 ∧
    (reset esn).inputWeights = esn.inputWeights ∧
    (reset esn).reservoirWeights = esn.reservoirWeights ∧
    (reset esn).outputWeights = esn.outputWeights ∧
    (reset esn).trained = esn.trained ∧
    (reset esn).params = esn.params ∧
    (reset esn).persona = esn.persona ∧
    (reset esn).membranes = esn.membranes :=
  ⟨map_const_zero esn.state, rfl, rfl, rfl, rfl, rfl, rfl, rfl⟩

/-- C3: with already-established input weights, an update whose input length
differs from the established input dimension returns the dimension-mismatch
error and the engine exactly unchanged (state and all weight matrices). -/
theorem update_dimension_mismatch (tanh : ℚ → ℚ) (draw : Nat → Nat → ℚ)
    (draws : List ℚ) (esn : ESN) (input : List ℚ)
    (hw : esn.inputWeights ≠ [])
    (hlen : input.length ≠ (esn.inputWeights.getD 0 []).length) :
    update tanh draw draws esn input =
      (esn, some ("input dimension mismatch: expected "
        ++ toString (esn.inputWeights.getD 0 []).length
        ++ ", got " ++ toString input.length)) := by
  have h0 : ¬ esn.inputWeights.length = 0 := by
    simpa [List.length_eq_zero] using hw
  simp only [update, if_neg h0, if_pos hlen]

/-- C3 witness: the engine with established 1-dimensional input weights
rejects a length-2 input unchanged. -/
theorem update_dimension_mismatch_witness :
    update (fun x => x) (fun _ _ => 0) [] esnDim1 [1, 2] =
      (esnDim1, some ("input dimension mismatch: expected "
        ++ toString (esnDim1.inputWeights.getD 0 []).length
        ++ ", got " ++ toString ([1, 2] : List ℚ).length)) :=
  update_dimension_mismatch (fun x => x) (fun _ _ => 0) [] esnDim1 [1, 2]
    (by decide) (by decide)

lemma foldl_fix {α β : Type} (f : α → β → α) (w : α) (h : ∀ b, f w b = w) :
    ∀ l : List β, l.foldl f w = w := by
  intro l
  induction l with
  | nil => rfl
  | cons b bs ih => rw [List.foldl_cons, h b, ih]

lemma trainEpoch_fix (lr x : ℚ) :
    trainEpoch 0 lr 1 1 [[0]] [[1]] [[x]] = [[x]] := by
  simp [trainEpoch, backwardPass, forwardRow, List.range_succ]

lemma gdLoop_fix (lr x : ℚ) :
    gdLoop 100 0 lr 1 1 [[0]] [[1]] [[x]] = [[x]] := by
  unfold gdLoop
  exact foldl_fix _ _ (fun _ => trainEpoch_fix lr x) _

/-- C1 counterexample: on a trained engine whose output weights are [[1]]
(ridge penalty 0), with states [[0]] and targets [[1]], TrainOutput re-zeroes
the output weights and gradient descent leaves them at [[0]], whereas resuming
from the existing matrix (the claimed behaviour, `trainOutputResume`) would
leave them at [[1]]. -/
theorem trainOutput_rezeroes_counterexample :
    (trainOutput esnTrained [[0]] [[1]]).1.outputWeights = [[0]] ∧
    (trainOutputResume esnTrained [[0]] [[1]]).1.outputWeights = [[1]] ∧
    (trainOutput esnTrained [[0]] [[1]]).1.outputWeights ≠
      (trainOutputResume esnTrained [[0]] [[1]]).1.outputWeights := by
  have h0 : (trainOutput esnTrained [[0]] [[1]]).1.outputWeights = [[0]] := by
    simp [trainOutput, esnTrained, List.replicate, gdLoop_fix _ 0]
  have h1 : (trainOutputResume esnTrained [[0]] [[1]]).1.outputWeights = [[1]] := by
    simp [trainOutputResume, esnTrained, gdLoop_fix _ 1]
  refine ⟨h0, h1, ?_⟩
  rw [h0, h1]
  simp

/-- C1 (amended): TrainOutput always reallocates the output weight matrix to
zeros (outputDim × inputDim) and runs gradient descent from that zero matrix;
any existing output weights are discarded (the result is the same as training
an engine with no output weights), and the trained flag is set. -/
theorem trainOutput_starts_from_zero (esn : ESN) (states targets : List (List ℚ))
    (h1 : states.length = targets.length) (h2 : states ≠ []) :
    (trainOutput esn states targets).1.outputWeights =
      gdLoop 100 esn.params.ridgeParam (1 / 100) (states.getD 0 []).length
        (targets.getD 0 []).length states targets
        (List.replicate (targets.getD 0 []).length
          (List.replicate (states.getD 0 []).length 0)) ∧
    (trainOutput esn states targets).1.outputWeights =
      (trainOutput { esn with outputWeights := [] } states targets).1.outputWeights ∧
    (trainOutput esn states targets).1.trained = true := by
  have hz : ¬ states.length = 0 := by
    simpa [List.length_eq_zero] using h2
  have hzt : ¬ targets = [] := by
    intro h
    exact hz (by simp [h1, h])
  refine ⟨?_, ?_, ?_⟩ <;> simp [trainOutput, h1, hz, hzt]

/-- C1 witness for the amended claim, at the concrete trained engine. -/
theorem trainOutput_starts_from_zero_witness :
    (trainOutput esnTrained [[0]] [[1]]).1.outputWeights =
      gdLoop 100 esnTrained.params.ridgeParam (1 / 100)
        (([[(0 : ℚ)]]).getD 0 []).length (([[(1 : ℚ)]]).getD 0 []).length
        [[0]] [[1]]
        (List.replicate (([[(1 : ℚ)]]).getD 0 []).length
          (List.replicate (([[(0 : ℚ)]]).getD 0 []).length 0)) ∧
    (trainOutput esnTrained [[0]] [[1]]).1.outputWeights =
      (trainOutput { esnTrained with outputWeights := [] } [[0]] [[1]]).1.outputWeights ∧
    (trainOutput esnTrained [[0]] [[1]]).1.trained = true :=
  trainOutput_starts_from_zero esnTrained [[0]] [[1]] rfl (by decide)

/-! ### C6: phase structure of the system step -/

lemma getD_set_self {α : Type} (l : List α) (i : Nat) (x d : α)
    (h : i < l.length) : (l.set i x).getD i d = x := by
  simp [List.getD_eq_getElem?_getD, List.getElem?_set_self h]

lemma getD_set_ne {α : Type} (l : List α) (i j : Nat) (x d : α) (h : i ≠ j) :
    (l.set i x).getD j d = l.getD j d := by
  simp [List.getD_eq_getElem?_getD, List.getElem?_set_ne h]

lemma foldl_set_range_eq_map (g : MNode → MNode) :
    ∀ (k : Nat) (nodes : List MNode), k ≤ nodes.length →
      (List.range k).foldl
          (fun ns i => ns.set i (g (ns.getD i default))) nodes
        = (nodes.take k).map g ++ nodes.drop k := by
  intro k
  induction k with
  | zero => intro nodes _; simp
  | succ k ih =>
    intro nodes hk
    have hklt : k < nodes.length := hk
    have hk' : k ≤ nodes.length := Nat.le_of_lt hklt
    rw [List.range_succ, List.foldl_append, ih nodes hk']
    simp only [List.foldl_cons, List.foldl_nil]
    have hlen : ((nodes.take k).map g).length = k := by
      simp [Nat.min_eq_left hk']
    have hgetD : ((nodes.take k).map g ++ nodes.drop k).getD k default
        = nodes.getD k default := by
      rw [List.getD_append_right _ _ _ _ (le_of_eq hlen), hlen, Nat.sub_self]
      simp [List.getD_eq_getElem?_getD]
    rw [hgetD, List.set_append, if_neg (by rw [hlen]; exact lt_irrefl k),
      hlen, Nat.sub_self]
    rw [List.drop_eq_getElem_cons hklt, List.set_cons_zero]
    rw [List.take_succ, List.getElem?_eq_getElem hklt]
    simp only [Option.toList_some, List.map_append, List.map_cons, List.map_nil,
      List.append_assoc, List.singleton_append]
    rw [List.getD_eq_getElem?_getD, List.getElem?_eq_getElem hklt]
    rfl

lemma evolveAll_eq_map (nodes : List MNode) :
    evolveAll nodes =
      nodes.map (fun nd => { nd with membrane := evolve nd.membrane }) := by
  have h := foldl_set_range_eq_map
    (fun nd => { nd with membrane := evolve nd.membrane }) nodes.length nodes le_rfl
  simpa [evolveAll] using h

/-- C6: one system step consists of an evolution phase that evolves every
registered membrane (in registry order, equivalently all at once, since each
evolution touches only its own node) strictly before the transport phase; the
transport of each membrane goes to the parent (when present) strictly before
its children in child order, each pass seeing the store as mutated by the
previous passes; and the step counter increases by exactly 1. -/
theorem step_phases (s : MembraneSystem) :
    (MembraneSystem.step s).stepCount = s.stepCount + 1 ∧
    (MembraneSystem.step s).all =
      transportAll
        (s.all.map (fun nd => { nd with membrane := evolve nd.membrane })) ∧
    (∀ (ns : List MNode) (i : Nat),
      transportNode ns i =
        (ns.getD i default).children.foldl (fun cur c => storePass cur i c)
          (match (ns.getD i default).parent with
           | some p => storePass ns i p
           | none => ns)) := by
  refine ⟨rfl, ?_, fun ns i => rfl⟩
  simp only [MembraneSystem.step, evolveAll_eq_map]

/-! ### C7: hierarchy construction invariants -/

lemma default_mnode_children : (default : MNode).children = [] := rfl

lemma preservedExtends_refl (nodes : List MNode) : PreservedExtends nodes nodes :=
  ⟨le_rfl, fun _ _ => ⟨rfl, rfl, fun _ hc => hc⟩⟩

lemma preservedExtends_trans {a b c : List MNode}
    (hab : PreservedExtends a b) (hbc : PreservedExtends b c) :
    PreservedExtends a c := by
  refine ⟨hab.1.trans hbc.1, fun i hi => ?_⟩
  have hib : i < b.length := lt_of_lt_of_le hi hab.1
  obtain ⟨hm1, hp1, hc1⟩ := hab.2 i hi
  obtain ⟨hm2, hp2, hc2⟩ := hbc.2 i hib
  exact ⟨hm2.trans hm1, hp2.trans hp1, fun x hx => hc2 x (hc1 x hx)⟩

lemma pe_children_subset {old new : List MNode} (hpe : PreservedExtends old new) :
    ∀ j c, c ∈ (old.getD j default).children → c ∈ (new.getD j default).children := by
  intro j c hc
  by_cases hj : j < old.length
  · exact (hpe.2 j hj).2.2 c hc
  · rw [List.getD_eq_default _ _ (le_of_not_lt hj), default_mnode_children] at hc
    exact absurd hc (List.not_mem_nil c)

lemma reaches_mono {old new : List MNode}
    (h : ∀ j c, c ∈ (old.getD j default).children →
      c ∈ (new.getD j default).children) :
    ∀ i, Reaches old i → Reaches new i := by
  intro i hr
  induction hr with
  | root => exact Reaches.root
  | child j c _ hc ihj => exact Reaches.child j c ihj (h j c hc)

lemma addChild_length (nodes : List MNode) (p : Nat) (c : Membrane) :
    (addChild nodes p c).length = nodes.length + 1 := by
  simp [addChild]

lemma addChild_getD_new (nodes : List MNode) (p : Nat) (c : Membrane) :
    (addChild nodes p c).getD nodes.length default =
      ⟨c, some p, []⟩ := by
  unfold addChild
  rw [List.getD_append_right _ _ _ _ (by simp), List.length_set, Nat.sub_self]
  rfl

lemma addChild_getD_old (nodes : List MNode) (p : Nat) (c : Membrane) (i : Nat)
    (hi : i < nodes.length) (hne : i ≠ p) :
    (addChild nodes p c).getD i default = nodes.getD i default := by
  unfold addChild
  rw [List.getD_append _ _ _ i (by simp [hi])]
  exact getD_set_ne _ _ _ _ _ (fun h => hne h.symm)

lemma addChild_getD_parent (nodes : List MNode) (p : Nat) (c : Membrane)
    (hp : p < nodes.length) :
    (addChild nodes p c).getD p default =
      { nodes.getD p default with
        children := (nodes.getD p default).children ++ [nodes.length] } := by
  unfold addChild
  rw [List.getD_append _ _ _ p (by simp [hp])]
  exact getD_set_self _ _ _ _ (by simp [hp])

lemma addChild_pe (nodes : List MNode) (p : Nat) (c : Membrane) :
    PreservedExtends nodes (addChild nodes p c) := by
  refine ⟨by rw [addChild_length]; omega, fun i hi => ?_⟩
  by_cases hip : i = p
  · subst hip
    rw [addChild_getD_parent nodes i c hi]
    exact ⟨rfl, rfl, fun x hx => List.mem_append_left _ hx⟩
  · rw [addChild_getD_old nodes p c i hi hip]
    exact ⟨rfl, rfl, fun _ hx => hx⟩

lemma addChild_wf (nodes : List MNode) (p : Nat) (c : Membrane)
    (hp : p < nodes.length) (hwf : NodesWF nodes)
    (hlev : c.level = (nodes.getD p default).membrane.level + 1)
    (hperm : c.permeability = 1 / 2 + ((c.level : Int) : ℚ) / 10) :
    NodesWF (addChild nodes p c) := by
  obtain ⟨hpos, hpar, hcl, hreach, hconv⟩ := hwf
  have hpe := addChild_pe nodes p c
  have hlen := addChild_length nodes p c
  refine ⟨by omega, ?_, ?_, ?_, ?_⟩
  · intro i hi0 hi
    rw [hlen] at hi
    rcases Nat.lt_or_ge i nodes.length with hilt | hige
    · obtain ⟨q, hq, hqi, hqlev, hqperm⟩ := hpar i hi0 hilt
      obtain ⟨hmi, hpi, _⟩ := hpe.2 i hilt
      have hqlt : q < nodes.length := lt_trans hqi hilt
      obtain ⟨hmq, _, _⟩ := hpe.2 q hqlt
      exact ⟨q, by rw [hpi]; exact hq, hqi, by rw [hmi, hmq]; exact hqlev,
        by rw [hmi]; exact hqperm⟩
    · have hieq : i = nodes.length := by omega
      subst hieq
      rw [addChild_getD_new]
      obtain ⟨hmp, _, _⟩ := hpe.2 p hp
      exact ⟨p, rfl, hp, by rw [hmp]; exact hlev, hperm⟩
  · intro i hi x hx
    rw [hlen] at hi ⊢
    rcases Nat.lt_or_ge i nodes.length with hilt | hige
    · by_cases hip : i = p
      · subst hip
        rw [addChild_getD_parent nodes i c hilt] at hx
        simp only [List.mem_append, List.mem_singleton] at hx
        rcases hx with hx | hx
        · exact lt_trans (hcl i hilt x hx) (by omega)
        · omega
      · rw [addChild_getD_old nodes p c i hilt hip] at hx
        exact lt_trans (hcl i hilt x hx) (by omega)
    · have hieq : i = nodes.length := by omega
      subst hieq
      rw [addChild_getD_new] at hx
      exact absurd hx (List.not_mem_nil x)
  · intro i hi
    rw [hlen] at hi
    rcases Nat.lt_or_ge i nodes.length with hilt | hige
    · exact reaches_mono (pe_children_subset hpe) i (hreach i hilt)
    · have hieq : i = nodes.length := by omega
      subst hieq
      refine Reaches.child p nodes.length
        (reaches_mono (pe_children_subset hpe) p (hreach p hp)) ?_
      rw [addChild_getD_parent nodes p c hp]
      exact List.mem_append_right _ (by simp)
  · intro i hr
    rw [hlen]
    induction hr with
    | root => omega
    | child j x hj hx ihj =>
      rcases Nat.lt_or_ge j nodes.length with hjlt | hjge
      · by_cases hjp : j = p
        · subst hjp
          rw [addChild_getD_parent nodes j c hjlt] at hx
          simp only [List.mem_append, List.mem_singleton] at hx
          rcases hx with hx | hx
          · exact lt_trans (hcl j hjlt x hx) (by omega)
          · omega
        · rw [addChild_getD_old nodes p c j hjlt hjp] at hx
          exact lt_trans (hcl j hjlt x hx) (by omega)
      · have hjeq : j = nodes.length := by omega
        subst hjeq
        rw [addChild_getD_new] at hx
        exact absurd hx (List.not_mem_nil x)

lemma spawnChild_length (nodes : List MNode) (p : Nat) (cd : Int) (sfx : String) :
    (spawnChild nodes p cd sfx).length = nodes.length + 1 :=
  addChild_length _ _ _

lemma spawnChild_getD_new (nodes : List MNode) (p : Nat) (cd : Int) (sfx : String) :
    (spawnChild nodes p cd sfx).getD nodes.length default =
      ⟨{ id := (nodes.getD p default).membrane.id ++ sfx, level := cd,
         permeability := 1 / 2 + (cd : ℚ) / 10,
         objects := [], rules := createDefaultRules }, some p, []⟩ :=
  addChild_getD_new _ _ _

lemma spawnChild_pe (nodes : List MNode) (p : Nat) (cd : Int) (sfx : String) :
    PreservedExtends nodes (spawnChild nodes p cd sfx) :=
  addChild_pe _ _ _

lemma spawnChild_wf (nodes : List MNode) (p : Nat) (cd : Int) (sfx : String)
    (hp : p < nodes.length) (hwf : NodesWF nodes)
    (hlev : (nodes.getD p default).membrane.level = cd - 1) :
    NodesWF (spawnChild nodes p cd sfx) := by
  refine addChild_wf nodes p _ hp hwf ?_ rfl
  simp only [hlev]
  omega

lemma buildHierarchyFuel_wf :
    ∀ (fuel : Nat) (maxD cd : Int) (pIdx : Nat) (nodes : List MNode),
      pIdx < nodes.length →
      (nodes.getD pIdx default).membrane.level = cd - 1 →
      NodesWF nodes →
      NodesWF (buildHierarchyFuel fuel maxD cd pIdx nodes) ∧
      PreservedExtends nodes (buildHierarchyFuel fuel maxD cd pIdx nodes) := by
  intro fuel
  induction fuel with
  | zero =>
    intro maxD cd pIdx nodes _ _ hwf
    exact ⟨hwf, preservedExtends_refl _⟩
  | succ fuel ih =>
    intro maxD cd pIdx nodes hp hlev hwf
    simp only [buildHierarchyFuel]
    split
    · exact ⟨hwf, preservedExtends_refl _⟩
    · have hwf0 : NodesWF (spawnChild nodes pIdx cd "_0") :=
        spawnChild_wf nodes pIdx cd "_0" hp hwf hlev
      have hpe0 : PreservedExtends nodes (spawnChild nodes pIdx cd "_0") :=
        spawnChild_pe nodes pIdx cd "_0"
      have hp0 : nodes.length < (spawnChild nodes pIdx cd "_0").length := by
        rw [spawnChild_length]; omega
      have hlev0 : ((spawnChild nodes pIdx cd "_0").getD nodes.length
          default).membrane.level = (cd + 1) - 1 := by
        rw [spawnChild_getD_new]
        simp only []
        omega
      obtain ⟨hwf1, hpe1⟩ := ih maxD (cd + 1) nodes.length
        (spawnChild nodes pIdx cd "_0") hp0 hlev0 hwf0
      set nodes1 := buildHierarchyFuel fuel maxD (cd + 1) nodes.length
        (spawnChild nodes pIdx cd "_0") with hnodes1
      have hpe01 : PreservedExtends nodes nodes1 :=
        preservedExtends_trans hpe0 hpe1
      have hp1 : pIdx < nodes1.length := lt_of_lt_of_le hp hpe01.1
      have hlev1 : (nodes1.getD pIdx default).membrane.level = cd - 1 := by
        rw [(hpe01.2 pIdx hp).1]
        exact hlev
      have hwf2 : NodesWF (spawnChild nodes1 pIdx cd "_1") :=
        spawnChild_wf nodes1 pIdx cd "_1" hp1 hwf1 hlev1
      have hpe2 : PreservedExtends nodes1 (spawnChild nodes1 pIdx cd "_1") :=
        spawnChild_pe nodes1 pIdx cd "_1"
      have hp2 : nodes1.length < (spawnChild nodes1 pIdx cd "_1").length := by
        rw [spawnChild_length]; omega
      have hlev2 : ((spawnChild nodes1 pIdx cd "_1").getD nodes1.length
          default).membrane.level = (cd + 1) - 1 := by
        rw [spawnChild_getD_new]
        simp only []
        omega
      obtain ⟨hwf3, hpe3⟩ := ih maxD (cd + 1) nodes1.length
        (spawnChild nodes1 pIdx cd "_1") hp2 hlev2 hwf2
      exact ⟨hwf3,
        preservedExtends_trans hpe01 (preservedExtends_trans hpe2 hpe3)⟩

lemma rootNode_children : rootNode.children = [] := rfl

lemma rootNode_wf : NodesWF [rootNode] := by
  refine ⟨by simp, ?_, ?_, ?_, ?_⟩
  · intro i hi0 hi
    simp at hi
    omega
  · intro i hi x hx
    simp at hi
    subst hi
    rw [show [rootNode].getD 0 default = rootNode from rfl,
      rootNode_children] at hx
    exact absurd hx (List.not_mem_nil x)
  · intro i hi
    simp at hi
    subst hi
    exact Reaches.root
  · intro i hr
    induction hr with
    | root => simp
    | child j x _ hx ihj =>
      simp at ihj
      subst ihj
      rw [show [rootNode].getD 0 default = rootNode from rfl,
        rootNode_children] at hx
      exact absurd hx (List.not_mem_nil x)

/-- C7: for every depth, the built hierarchy has the root named "root" with
level 0 and permeability 1.0 at registry index 0; every other registry entry
has a parent of smaller (earlier-created) index, level equal to its parent's
level plus 1, and permeability `0.5 + 0.1·level`; and the registry contains
exactly the membranes reachable from the root. -/
theorem newMembraneSystem_hierarchy (d : Int) :
    ((newMembraneSystem d).all.getD 0 default).membrane.id = "root" ∧
    ((newMembraneSystem d).all.getD 0 default).membrane.level = 0 ∧
    ((newMembraneSystem d).all.getD 0 default).membrane.permeability = 1 ∧
    (∀ i, 0 < i → i < (newMembraneSystem d).all.length →
      ∃ p, ((newMembraneSystem d).all.getD i default).parent = some p ∧ p < i ∧
        ((newMembraneSystem d).all.getD i default).membrane.level
          = ((newMembraneSystem d).all.getD p default).membrane.level + 1 ∧
        ((newMembraneSystem d).all.getD i default).membrane.permeability
          = 1 / 2 +
            ((((newMembraneSystem d).all.getD i default).membrane.level : Int) : ℚ)
              / 10) ∧
    (∀ i, i < (newMembraneSystem d).all.length →
      Reaches (newMembraneSystem d).all i) ∧
    (∀ i, Reaches (newMembraneSystem d).all i →
      i < (newMembraneSystem d).all.length) := by
  obtain ⟨hwf, hpe⟩ := buildHierarchyFuel_wf (d - 1).toNat d 1 0 [rootNode]
    (by simp) (by rfl) rootNode_wf
  have hall : (newMembraneSystem d).all =
      buildHierarchyFuel (d - 1).toNat d 1 0 [rootNode] := rfl
  have hroot := (hpe.2 0 (by simp)).1
  refine ⟨?_, ?_, ?_, ?_, ?_, ?_⟩
  · rw [hall, hroot]
    rfl
  · rw [hall, hroot]
    rfl
  · rw [hall, hroot]
    rfl
  · rw [hall]
    exact hwf.2.1
  · rw [hall]
    exact hwf.2.2.2.1
  · rw [hall]
    exact hwf.2.2.2.2

/-- C7 witness at depth 2, registry index 1: the node has a parent of smaller
index with the level and permeability relations, and is reachable from the
root. -/
theorem newMembraneSystem_hierarchy_witness :
    (∃ p, ((newMembraneSystem 2).all.getD 1 default).parent = some p ∧ p < 1 ∧
      ((newMembraneSystem 2).all.getD 1 default).membrane.level
        = ((newMembraneSystem 2).all.getD p default).membrane.level + 1 ∧
      ((newMembraneSystem 2).all.getD 1 default).membrane.permeability
        = 1 / 2 +
          ((((newMembraneSystem 2).all.getD 1 default).membrane.level : Int) : ℚ)
            / 10) ∧
    Reaches (newMembraneSystem 2).all 1 :=
  ⟨(newMembraneSystem_hierarchy 2).2.2.2.1 1 (by decide) (by decide),
   (newMembraneSystem_hierarchy 2).2.2.2.2.1 1 (by decide)⟩

end Reservoir
